import Mathlib

/-!
Verification of a static mixture-of-experts bandit agent
(`tf_agents/bandits/agents/static_mixture_agent.py`).

The development shallowly embeds the source module:

* a tensor is modelled by the list of its rows along the leading (batch)
  dimension, so a tensor of shape `[M, ...]` becomes a `List ρ` of length `M`
  where `ρ` stands for one row;
* a nested structure (a `tf.nest`) is a finite ordered tree whose leaves are
  tensors, modelled by the inductive type `Nest`;
* the external tensor-substrate capabilities the module consumes
  (`tf.dynamic_partition`, `tf.nest.flatten`, `tf.nest.pack_sequence_as`,
  the batch-dimension flatten/restore utilities, `tf.zeros_like`) are modelled
  from their documented contracts;
* Python exceptions are modelled by `Option`/`Except` results.
-/

/-- A nested structure (a `tf.nest`): a finite ordered tree whose leaves hold
tensors of type `α`.  An inner node with children `c₁, …, cₘ` is encoded
cons-style as `cons c₁ (cons c₂ … nil)`. -/
inductive Nest (α : Type) where
  | leaf (tensor : α) : Nest α
  | nil : Nest α
  | cons (child rest : Nest α) : Nest α
deriving DecidableEq, Repr

namespace Nest

/-- Model of `tf.nest.flatten`: the ordered list of the leaves of a nest. -/
def flatten {α : Type} : Nest α → List α
  | .leaf t => [t]
  | .nil => []
  | .cons c r => c.flatten ++ r.flatten

/-- Map a function over every leaf of a nest, keeping the tree shape. -/
def map {α β : Type} (f : α → β) : Nest α → Nest β
  | .leaf t => .leaf (f t)
  | .nil => .nil
  | .cons c r => .cons (c.map f) (r.map f)

/-- The tree shape of a nest with the leaf contents stripped. -/
def shape {α : Type} (n : Nest α) : Nest Unit :=
  n.map (fun _ => ())

end Nest

/-- Helper for `packSequenceAs`: consume leaves for the template from the
front of the flat list, returning the packed nest and the unconsumed rest.
Returns `none` when the flat list runs out (the error case of
`tf.nest.pack_sequence_as`). -/
def packAux {α β : Type} : Nest α → List β → Option (Nest β × List β)
  | .leaf _, [] => none
  | .leaf _, b :: bs => some (.leaf b, bs)
  | .nil, bs => some (.nil, bs)
  | .cons c r, bs =>
      (packAux c bs).bind fun p =>
        (packAux r p.2).bind fun q =>
          some (.cons p.1 q.1, q.2)

/-- Model of `tf.nest.pack_sequence_as`: re-assemble a flat list of leaves
into the tree shape of the template nest; `none` models the exception raised
when the number of leaves does not match the template. -/
def packSequenceAs {α β : Type} (template : Nest α) (flat : List β) : Option (Nest β) :=
  match packAux template flat with
  | some (n, []) => some n
  | _ => none

/-- Model of Python's `zip(*xss)` on a list of lists: transpose, truncated to
the shortest inner list; `zip` of no arguments yields the empty list. -/
def pyZipStar {α : Type} : List (List α) → List (List α)
  | [] => []
  | [xs] => xs.map (fun x => [x])
  | xs :: xss => (xs.zip (pyZipStar xss)).map (fun p => p.1 :: p.2)

/-- Rows of `t` whose label in `ps` equals `i`, in their original order.
Row `j` of the data is paired with label `ps[j]`. -/
def selectRows {ρ : Type} (ps : List Nat) (i : Nat) (t : List ρ) : List ρ :=
  ((t.zip ps).filter (fun p => p.2 == i)).map Prod.fst

/-- Modelled from the spec: the consumed substrate capability
`tf.dynamic_partition` (row-wise dynamic partition-by-label).  Output `i`
(for `0 ≤ i < numPartitions`) holds exactly the rows of `data` whose label in
`partitions` equals `i`, in their original relative order. -/
def dynamicPartition {ρ : Type} (data : List ρ) (partitions : List Nat)
    (numPartitions : Nat) : List (List ρ) :=
  (List.range numPartitions).map (fun i => selectRows partitions i data)

/-- Embedding of `_dynamic_partition_of_nested_tensors`: flatten the nest,
partition every flattened tensor by the same labels, transpose, and pack every
group back into the template shape.  Each group is an `Option` because
`pack_sequence_as` can raise. -/
def dynamicPartitionOfNestedTensors {ρ : Type} (nestedTensor : Nest (List ρ))
    (partitions : List Nat) (numPartitions : Nat) : List (Option (Nest (List ρ))) :=
  let flattenedTensors := nestedTensor.flatten
  let partitionedFlatTensors :=
    flattenedTensors.map (fun t => dynamicPartition t partitions numPartitions)
  let listOfPartitions := pyZipStar partitionedFlatTensors
  listOfPartitions.map (fun i => packSequenceAs nestedTensor i)

/-! ### The agent data model -/

/-- The loss record returned by an agent's train call (`tf_agent.LossInfo`
with an empty `extra`); the scalar loss is modelled as an integer. -/
structure LossInfo where
  loss : Int
  extra : Unit
deriving DecidableEq, Repr

/-- The single-step transition record built by `trajectory.single_step` from
the routed per-agent groups (the fields the coordinator fills in). -/
structure Transition (ρ : Type) where
  observation : Nest (List ρ)
  action : Nest (List ρ)
  policyInfo : Nest (List ρ)
  reward : Nest (List ρ)
  discount : Nest (List ρ)
deriving DecidableEq, Repr

/-- A sub-agent as consumed by the coordinator: its structural specs (with
`infoSpec` standing for `agent.policy.info_spec`) and its opaque
`train(batch) -> loss` capability.  Specs are drawn from an arbitrary type `S`
with decidable equality. -/
structure SubAgent (S ρ : Type) where
  timeStepSpec : S
  actionSpec : S
  infoSpec : S
  train : Transition ρ → LossInfo

/-- The constructed `StaticMixtureAgent` state: the fields `__init__` stores
on success.  The composed `MixturePolicy` is an external collaborator and is
not modelled. -/
structure StaticMixtureAgent (S ρ : Type) where
  timeStepSpec : S
  actionSpec : S
  originalInfoSpec : S
  agents : List (SubAgent S ρ)
  numAgents : Nat
  mixtureWeights : List Int

/-- The two ways construction can fail: `agents[0]` on an empty list raises an
index error; the validation block raises a value error with a message. -/
inductive InitError where
  | indexError : InitError
  | valueError (msg : String) : InitError
deriving DecidableEq, Repr

/-- One iteration of the validation loop body of `StaticMixtureAgent.__init__`
for a single agent: each failing comparison against agent 0's specs overwrites
the running error message, in source order (action, then time step, then
info specs). -/
def specErrorStep {S ρ : Type} [DecidableEq S] (actionSpec timeStepSpec originalInfoSpec : S)
    (em : Option String) (agent : SubAgent S ρ) : Option String :=
  let em := if actionSpec ≠ agent.actionSpec then some "Inconsistent action specs." else em
  let em := if timeStepSpec ≠ agent.timeStepSpec then some "Inconsistent time step specs." else em
  if originalInfoSpec ≠ agent.infoSpec then some "Inconsistent info specs." else em

/-- The final `error_message` of `StaticMixtureAgent.__init__`: the validation
loop over `agents[1:]`, then the length check, which overwrites any earlier
message. -/
def initErrorMessage {S ρ : Type} [DecidableEq S] (mixtureWeights : List Int)
    (agent0 : SubAgent S ρ) (rest : List (SubAgent S ρ)) : Option String :=
  let errorMessage :=
    rest.foldl (specErrorStep agent0.actionSpec agent0.timeStepSpec agent0.infoSpec) none
  if mixtureWeights.length ≠ (agent0 :: rest).length then
    some "`mixture_weights` and `agents` must have equal length."
  else errorMessage

/-- Embedding of `StaticMixtureAgent.__init__`.  Reading `agents[0]` from an
empty list raises an index error before any validation runs; otherwise the
validation loop and length check produce at most one error message, and on
success the coordinator stores the agent list, its length, the weights, and
agent 0's specs verbatim. -/
def mixtureInit {S ρ : Type} [DecidableEq S] (mixtureWeights : List Int)
    (agents : List (SubAgent S ρ)) : Except InitError (StaticMixtureAgent S ρ) :=
  match agents with
  | [] => .error .indexError
  | agent0 :: rest =>
    match initErrorMessage mixtureWeights agent0 rest with
    | some msg => .error (.valueError msg)
    | none => .ok {
        timeStepSpec := agent0.timeStepSpec
        actionSpec := agent0.actionSpec
        originalInfoSpec := agent0.infoSpec
        agents := agent0 :: rest
        numAgents := (agent0 :: rest).length
        mixtureWeights := mixtureWeights }

/-! ### The order of validation checks (C9) -/

/-- Messages of the failing per-agent validation checks, in the evaluation
order of the claim: action spec, then time step spec, then info spec,
comparing against agent 0's specs. -/
def specCheckMessages {S ρ : Type} [DecidableEq S] (aS tS iS : S)
    (agent : SubAgent S ρ) : List String :=
  (if aS ≠ agent.actionSpec then ["Inconsistent action specs."] else []) ++
  (if tS ≠ agent.timeStepSpec then ["Inconsistent time step specs."] else []) ++
  (if iS ≠ agent.infoSpec then ["Inconsistent info specs."] else [])

/-- Messages of all failing construction checks, in evaluation order: the
three spec checks per agent, over `agents[1:]` in order, then the
weights/agents length check. -/
def failingMessages {S ρ : Type} [DecidableEq S] (w : List Int)
    (agents : List (SubAgent S ρ)) : List String :=
  match agents with
  | [] => []
  | agent0 :: rest =>
      (rest.map (specCheckMessages agent0.actionSpec agent0.timeStepSpec
        agent0.infoSpec)).flatten ++
      (if w.length ≠ (agent0 :: rest).length then
        ["`mixture_weights` and `agents` must have equal length."] else [])

/-! ### The training operation -/

/-- A training batch as consumed by `_train`: every field carries two leading
batch dimensions (outer list: batch axis, inner list: the additional axis
flattened away before partitioning).  `policy_info` is the record with the
`mixture_agent_id` and `subpolicy_info` fields; reward and the agent ids are
single tensors, observation, action and the sub-policy info are nests. -/
structure MixtureExperience (ρ : Type) where
  observation : Nest (List (List ρ))
  action : Nest (List (List ρ))
  reward : List (List ρ)
  mixtureAgentId : List (List Nat)
  subpolicyInfo : Nest (List (List ρ))
deriving DecidableEq, Repr

/-- Modelled from the spec: the consumed substrate capability
`nest_utils.flatten_multi_batched_nested_tensors` merges the outer two batch
dimensions of every leaf into one. -/
def flattenMultiBatched {ρ : Type} (n : Nest (List (List ρ))) : Nest (List ρ) :=
  n.map List.flatten

/-- Modelled from the spec: `nest_utils.batch_nested_tensors` re-batches a
group's rows back into a single leading batch dimension; on the row-list
representation of tensors this is the identity on every leaf. -/
def batchNestedTensors {ρ : Type} (t : Nest (List ρ)) : Nest (List ρ) := t

/-- Modelled from the spec: `tf.zeros_like` on every leaf: same row count,
every row zero. -/
def zerosLike {ρ : Type} [Zero ρ] (t : Nest (List ρ)) : Nest (List ρ) :=
  t.map (List.map (fun _ => 0))

/-- The per-agent training loop of `_train` (`for k in range(self._num_agents)`):
for each index `k` read the four partitioned groups (a missing index or a
failed pack models the Python exception), build the single-step transition
with all-zero discount, call the sub-agent's train, and accumulate the loss.
In addition to the accumulated loss the loop records the sequence of sub-agent
train invocations (index and transition) as the observable call trace. -/
def trainLoop {S ρ : Type} [Zero ρ] (agents : List (SubAgent S ρ))
    (pObs pAct pInf pRew : List (Option (Nest (List ρ)))) :
    List Nat → List (Nat × Transition ρ) → Int →
    Option (List (Nat × Transition ρ) × LossInfo)
  | [], trace, loss => some (trace, { loss := loss, extra := () })
  | k :: ks, trace, loss =>
    match pObs.getD k none, pAct.getD k none, pInf.getD k none,
        pRew.getD k none, agents[k]? with
    | some observation, some action, some policyInfo, some reward, some agent =>
      let exp : Transition ρ := {
        observation := observation
        action := action
        policyInfo := policyInfo
        reward := reward
        discount := zerosLike reward }
      let lossInfo := agent.train exp
      trainLoop agents pObs pAct pInf pRew ks (trace ++ [(k, exp)]) (loss + lossInfo.loss)
    | _, _, _, _, _ => none

/-- Embedding of `StaticMixtureAgent._train`: the `weights` argument is
deleted unused; the reward, action, observation, `mixture_agent_id` and
`subpolicy_info` fields are flattened over their outer two batch dimensions;
the four data fields are partitioned by the flattened agent ids and re-batched;
then the per-agent loop trains every sub-agent on its group and sums the
losses.  The result also carries the observable call trace (see `trainLoop`). -/
def mixtureTrain {S ρ W : Type} [Zero ρ] (c : StaticMixtureAgent S ρ)
    (experience : MixtureExperience ρ) (weights : Option W) :
    Option (List (Nat × Transition ρ) × LossInfo) :=
  let reward := experience.reward.flatten
  let action := flattenMultiBatched experience.action
  let observation := flattenMultiBatched experience.observation
  let policyChoice := experience.mixtureAgentId.flatten
  let originalInfos := flattenMultiBatched experience.subpolicyInfo
  let partitionedNestedInfos :=
    (dynamicPartitionOfNestedTensors originalInfos policyChoice c.numAgents).map
      (Option.map batchNestedTensors)
  let partitionedNestedRewards :=
    (dynamicPartitionOfNestedTensors (Nest.leaf reward) policyChoice c.numAgents).map
      (Option.map batchNestedTensors)
  let partitionedNestedActions :=
    (dynamicPartitionOfNestedTensors action policyChoice c.numAgents).map
      (Option.map batchNestedTensors)
  let partitionedNestedObservations :=
    (dynamicPartitionOfNestedTensors observation policyChoice c.numAgents).map
      (Option.map batchNestedTensors)
  trainLoop c.agents partitionedNestedObservations partitionedNestedActions
    partitionedNestedInfos partitionedNestedRewards (List.range c.numAgents) [] 0

/-- The sub-batch routed to sub-agent `k`, as the claims describe it: for every
field exactly the flattened rows whose recorded `mixture_agent_id` equals `k`,
in their original order, with the discount all zeros shaped like the group's
reward. -/
def routedTransition {ρ : Type} [Zero ρ] (e : MixtureExperience ρ) (k : Nat) :
    Transition ρ :=
  let pc := e.mixtureAgentId.flatten
  { observation := (flattenMultiBatched e.observation).map (selectRows pc k)
    action := (flattenMultiBatched e.action).map (selectRows pc k)
    policyInfo := (flattenMultiBatched e.subpolicyInfo).map (selectRows pc k)
    reward := Nest.leaf (selectRows pc k e.reward.flatten)
    discount := Nest.leaf (List.replicate (selectRows pc k e.reward.flatten).length 0) }

/-- A well-formed training batch for a coordinator with `n` sub-agents: every
field has at least one tensor leaf, all flattened leaves share the common
leading row count of the flattened agent ids, and every recorded agent id is
in range. -/
def ValidExperience {ρ : Type} (e : MixtureExperience ρ) (n : Nat) : Prop :=
  (flattenMultiBatched e.observation).flatten ≠ [] ∧
  (flattenMultiBatched e.action).flatten ≠ [] ∧
  (flattenMultiBatched e.subpolicyInfo).flatten ≠ [] ∧
  (∀ t ∈ (flattenMultiBatched e.observation).flatten,
    t.length = e.mixtureAgentId.flatten.length) ∧
  (∀ t ∈ (flattenMultiBatched e.action).flatten,
    t.length = e.mixtureAgentId.flatten.length) ∧
  (∀ t ∈ (flattenMultiBatched e.subpolicyInfo).flatten,
    t.length = e.mixtureAgentId.flatten.length) ∧
  e.reward.flatten.length = e.mixtureAgentId.flatten.length ∧
  (∀ i ∈ e.mixtureAgentId.flatten, i < n)

instance {ρ : Type} [DecidableEq ρ] (e : MixtureExperience ρ) (n : Nat) :
    Decidable (ValidExperience e n) := by
  unfold ValidExperience
  infer_instance


/-! ### Concrete witnesses -/

/-- A concrete sub-agent returning a constant loss. -/
def agentA : SubAgent Nat Int :=
  { timeStepSpec := 0, actionSpec := 1, infoSpec := 2,
    train := fun _ => { loss := 3, extra := () } }

/-- A concrete sub-agent whose loss is the row count of its reward group. -/
def agentB : SubAgent Nat Int :=
  { timeStepSpec := 0, actionSpec := 1, infoSpec := 2,
    train := fun t => { loss := (t.reward.flatten.flatten.length : Int), extra := () } }

/-- A concrete sub-agent whose action spec disagrees with `agentA`. -/
def agentC : SubAgent Nat Int :=
  { timeStepSpec := 0, actionSpec := 5, infoSpec := 2,
    train := fun _ => { loss := 7, extra := () } }

/-- A two-agent coordinator. -/
def probeCoordinator : StaticMixtureAgent Nat Int :=
  { timeStepSpec := 0, actionSpec := 1, originalInfoSpec := 2,
    agents := [agentA, agentB], numAgents := 2, mixtureWeights := [1, 1] }

/-- The same sizes as `probeCoordinator` with different sub-agent behaviour. -/
def probeCoordinatorAlt : StaticMixtureAgent Nat Int :=
  { timeStepSpec := 0, actionSpec := 5, originalInfoSpec := 2,
    agents := [agentC, agentB], numAgents := 2, mixtureWeights := [2, 1] }

/-- A three-agent coordinator. -/
def probeCoordinator3 : StaticMixtureAgent Nat Int :=
  { timeStepSpec := 0, actionSpec := 1, originalInfoSpec := 2,
    agents := [agentA, agentB, agentC], numAgents := 3, mixtureWeights := [1, 1, 1] }

/-- The end-to-end scenario batch of the spec: four transitions with
`mixture_agent_id = [0, 1, 0, 1]` laid out as two outer batches of two. -/
def probeExperience : MixtureExperience Int :=
  { observation := Nest.cons (Nest.leaf [[10, 20], [30, 40]]) (Nest.leaf [[1, 2], [3, 4]])
    action := Nest.leaf [[0, 1], [0, 1]]
    reward := [[5, 6], [7, 8]]
    mixtureAgentId := [[0, 1], [0, 1]]
    subpolicyInfo := Nest.leaf [[9, 9], [9, 9]] }

/-- The edge-case batch of the spec: every `mixture_agent_id` equals 0. -/
def probeExperienceAllZero : MixtureExperience Int :=
  { observation := Nest.leaf [[10], [20]]
    action := Nest.leaf [[1], [2]]
    reward := [[5], [6]]
    mixtureAgentId := [[0], [0]]
    subpolicyInfo := Nest.leaf [[9], [9]] }

/-- A concrete nest with two row-aligned leaves of four rows. -/
def probeNest : Nest (List Int) :=
  Nest.cons (Nest.leaf [10, 20, 30, 40]) (Nest.cons Nest.nil (Nest.leaf [1, 2, 3, 4]))


/-! ### Theorems -/

namespace Nest

@[simp] theorem flatten_leaf {α : Type} (t : α) : (Nest.leaf t).flatten = [t] := rfl

@[simp] theorem flatten_nil {α : Type} : (Nest.nil : Nest α).flatten = [] := rfl

@[simp] theorem flatten_cons {α : Type} (c r : Nest α) :
    (Nest.cons c r).flatten = c.flatten ++ r.flatten := rfl

@[simp] theorem flatten_map {α β : Type} (f : α → β) (n : Nest α) :
    (n.map f).flatten = n.flatten.map f := by
  induction n with
  | leaf t => rfl
  | nil => rfl
  | cons c r ihc ihr => simp [map, ihc, ihr]

@[simp] theorem map_map {α β γ : Type} (f : α → β) (g : β → γ) (n : Nest α) :
    (n.map f).map g = n.map (g ∘ f) := by
  induction n with
  | leaf t => rfl
  | nil => rfl
  | cons c r ihc ihr => simp [map, ihc, ihr]

@[simp] theorem shape_map {α β : Type} (f : α → β) (n : Nest α) :
    (n.map f).shape = n.shape := by
  simp [shape, map_map]

end Nest

/-! ### Correctness lemmas for the partitioning utility -/

theorem packAux_flatten_map {α β : Type} (t : Nest α) (f : α → β) (rest : List β) :
    packAux t (t.flatten.map f ++ rest) = some (t.map f, rest) := by
  induction t generalizing rest with
  | leaf x => rfl
  | nil => rfl
  | cons c r ihc ihr =>
    rw [Nest.flatten_cons, List.map_append, List.append_assoc]
    show (packAux c _).bind _ = _
    rw [ihc]
    simp only [Option.some_bind]
    rw [ihr]
    rfl

theorem packSequenceAs_flatten_map {α β : Type} (t : Nest α) (f : α → β) :
    packSequenceAs t (t.flatten.map f) = some (t.map f) := by
  have h := packAux_flatten_map t f []
  rw [List.append_nil] at h
  simp [packSequenceAs, h]

theorem list_eq_range_map_getD {α : Type} (xs : List α) (d : α) :
    (List.range xs.length).map (fun i => xs.getD i d) = xs := by
  induction xs with
  | nil => rfl
  | cons x xs ih =>
    rw [List.length_cons, List.range_succ_eq_map, List.map_cons, List.map_map]
    simp only [List.getD]
    exact congrArg (x :: ·) ih

theorem pyZipStar_eq {α : Type} (d : α) :
    ∀ (xss : List (List α)) (n : Nat), xss ≠ [] → (∀ xs ∈ xss, xs.length = n) →
      pyZipStar xss = (List.range n).map (fun i => xss.map (fun xs => xs.getD i d))
  | [], _, hne, _ => absurd rfl hne
  | [xs], n, _, hlen => by
    have hx : xs.length = n := hlen xs (by simp)
    subst hx
    show xs.map (fun x => [x]) = (List.range xs.length).map (fun i => [xs.getD i d])
    conv_lhs => rw [← list_eq_range_map_getD xs d]
    rw [List.map_map]
    rfl
  | xs :: ys :: xss, n, _, hlen => by
    have hx : xs.length = n := hlen xs (by simp)
    have ih := pyZipStar_eq d (ys :: xss) n (by simp) (fun t ht => hlen t (by simp [ht]))
    show (xs.zip (pyZipStar (ys :: xss))).map (fun p => p.1 :: p.2) = _
    rw [ih]
    have hxs : xs = (List.range n).map (fun i => xs.getD i d) := by
      rw [← hx, list_eq_range_map_getD]
    conv_lhs => rw [hxs]
    rw [List.zip_map', List.map_map]
    rfl

theorem dynamicPartition_getD {ρ : Type} (data : List ρ) (ps : List Nat) (n i : Nat)
    (hi : i < n) :
    (dynamicPartition data ps n).getD i [] = selectRows ps i data := by
  rw [dynamicPartition, List.getD_eq_getElem?_getD, List.getElem?_map,
    List.getElem?_range hi]
  rfl

/-- Full characterization of `_dynamic_partition_of_nested_tensors` on an input
with at least one leaf: it returns, for every group index `i < n` in ascending
order, the nest obtained by keeping in every leaf exactly the rows labelled `i`. -/
theorem dynamicPartitionOfNestedTensors_eq {ρ : Type} (nested : Nest (List ρ))
    (ps : List Nat) (n : Nat) (hne : nested.flatten ≠ []) :
    dynamicPartitionOfNestedTensors nested ps n =
      (List.range n).map (fun i => some (nested.map (selectRows ps i))) := by
  rw [dynamicPartitionOfNestedTensors]
  have hlens : ∀ xs ∈ nested.flatten.map (fun t => dynamicPartition t ps n),
      xs.length = n := by
    intro xs hxs
    rcases List.mem_map.mp hxs with ⟨t, _, rfl⟩
    simp [dynamicPartition]
  have hne' : nested.flatten.map (fun t => dynamicPartition t ps n) ≠ [] := by
    simpa using hne
  rw [pyZipStar_eq ([] : List ρ) _ n hne' hlens, List.map_map]
  apply List.map_congr_left
  intro i hi
  have hi' : i < n := List.mem_range.mp hi
  have : (nested.flatten.map (fun t => dynamicPartition t ps n)).map
      (fun xs => xs.getD i []) = nested.flatten.map (fun t => selectRows ps i t) := by
    rw [List.map_map]
    apply List.map_congr_left
    intro t _
    exact dynamicPartition_getD t ps n i hi'
  simp only [Function.comp, this]
  exact packSequenceAs_flatten_map nested (selectRows ps i)

theorem filter_length_eq_countP {α : Type} (p : α → Bool) (l : List α) :
    (l.filter p).length = l.countP p := by
  induction l with
  | nil => rfl
  | cons a l ih => by_cases h : p a <;> simp [List.filter_cons, List.countP_cons, h, ih]

theorem list_sum_range {M : Type} [AddCommMonoid M] (n : Nat) (f : Nat → M) :
    ((List.range n).map f).sum = ∑ i in Finset.range n, f i := by
  induction n with
  | zero => rfl
  | succ m ih =>
    rw [List.range_succ, List.map_append, List.sum_append, Finset.sum_range_succ, ih]
    simp

theorem sum_countP_label {α : Type} (q : α × Nat → Bool) :
    ∀ (l : List (α × Nat)) (n : Nat), (∀ p ∈ l, p.2 < n) →
      (∑ i in Finset.range n, l.countP (fun p => q p && (p.2 == i))) = l.countP q
  | [], n, _ => by simp
  | p :: l, n, h => by
    have hp : p.2 < n := h p (by simp)
    have hl : ∀ x ∈ l, x.2 < n := fun x hx => h x (by simp [hx])
    have ih := sum_countP_label q l n hl
    simp only [List.countP_cons]
    rw [Finset.sum_add_distrib, ih]
    cases hq : q p with
    | false => simp [hq]
    | true =>
      simp only [hq, Bool.true_and]
      have hone : (∑ i in Finset.range n, if (p.2 == i) = true then 1 else 0) = 1 := by
        simp only [beq_iff_eq]
        rw [Finset.sum_ite_eq]
        simp [Finset.mem_range.mpr hp]
      rw [hone]
      simp

theorem length_selectRows {ρ : Type} (t : List ρ) (ps : List Nat) (i : Nat)
    (hlen : t.length = ps.length) :
    (selectRows ps i t).length = ps.countP (fun l => l == i) := by
  rw [selectRows, List.length_map, filter_length_eq_countP]
  have hmap : (t.zip ps).map Prod.snd = ps :=
    List.map_snd_zip t ps (le_of_eq hlen.symm)
  calc (t.zip ps).countP (fun p => p.2 == i)
      = ((t.zip ps).map Prod.snd).countP (fun l => l == i) := by
        rw [List.countP_map]; rfl
    _ = ps.countP (fun l => l == i) := by rw [hmap]

theorem sum_length_selectRows {ρ : Type} (t : List ρ) (ps : List Nat) (n : Nat)
    (hlab : ∀ l ∈ ps, l < n) (hlen : t.length = ps.length) :
    (∑ i in Finset.range n, (selectRows ps i t).length) = t.length := by
  have hz : ∀ p ∈ t.zip ps, p.2 < n := fun p hp => hlab p.2 (List.of_mem_zip hp).2
  have h := sum_countP_label (fun _ => true) (t.zip ps) n hz
  simp only [Bool.true_and] at h
  calc (∑ i in Finset.range n, (selectRows ps i t).length)
      = ∑ i in Finset.range n, (t.zip ps).countP (fun p => p.2 == i) := by
        apply Finset.sum_congr rfl
        intro i _
        rw [selectRows, List.length_map, filter_length_eq_countP]
    _ = (t.zip ps).countP (fun _ => true) := h
    _ = (t.zip ps).length := by simp [List.countP_true]
    _ = t.length := by rw [List.length_zip, hlen, Nat.min_self]

theorem selectRows_sublist {ρ : Type} (t : List ρ) (ps : List Nat) (i : Nat)
    (hlen : t.length ≤ ps.length) : (selectRows ps i t).Sublist t := by
  have h1 : ((t.zip ps).filter (fun p => p.2 == i)).Sublist (t.zip ps) :=
    List.filter_sublist (t.zip ps)
  have h2 := h1.map Prod.fst
  rwa [List.map_fst_zip t ps hlen] at h2

theorem selectRows_join_perm {ρ : Type} [DecidableEq ρ] (t : List ρ) (ps : List Nat)
    (n : Nat) (hlab : ∀ l ∈ ps, l < n) (hlen : t.length = ps.length) :
    ((List.range n).map (fun i => selectRows ps i t)).flatten.Perm t := by
  rw [List.perm_iff_count]
  intro a
  rw [List.count_flatten, List.map_map]
  have hz : ∀ p ∈ t.zip ps, p.2 < n := fun p hp => hlab p.2 (List.of_mem_zip hp).2
  have hc : ∀ i, List.count a (selectRows ps i t)
      = (t.zip ps).countP (fun p => (p.1 == a) && (p.2 == i)) := by
    intro i
    rw [selectRows, List.count_eq_countP, List.countP_map, List.countP_filter]
    rfl
  have hsum := sum_countP_label (fun p => p.1 == a) (t.zip ps) n hz
  calc ((List.range n).map (fun i => List.count a (selectRows ps i t))).sum
      = ∑ i in Finset.range n, (t.zip ps).countP (fun p => (p.1 == a) && (p.2 == i)) := by
        rw [list_sum_range]
        exact Finset.sum_congr rfl (fun i _ => hc i)
    _ = (t.zip ps).countP (fun p => p.1 == a) := hsum
    _ = ((t.zip ps).map Prod.fst).countP (fun x => x == a) := by rw [List.countP_map]; rfl
    _ = List.count a t := by
        rw [List.map_fst_zip t ps (le_of_eq hlen), List.count_eq_countP]

theorem mem_of_getElem_eq_some {α : Type} {l : List α} {i : Nat} {a : α}
    (h : l[i]? = some a) : a ∈ l := by
  have hlt : i < l.length := by
    by_contra hc
    rw [List.getElem?_eq_none (Nat.le_of_not_lt hc)] at h
    exact Option.noConfusion h
  rw [List.getElem?_eq_getElem hlt] at h
  cases h
  exact List.getElem_mem hlt

theorem selectRows_mem {ρ : Type} (t : List ρ) (ps : List Nat) (j : Nat) (lab : Nat)
    (x : ρ) (hj : ps[j]? = some lab) (hx : t[j]? = some x) :
    x ∈ selectRows ps lab t := by
  have hz : (t.zip ps)[j]? = some (x, lab) := by
    rw [List.getElem?_zip_eq_some]
    exact ⟨hx, hj⟩
  have hmem : (x, lab) ∈ t.zip ps := mem_of_getElem_eq_some hz
  have hfil : (x, lab) ∈ (t.zip ps).filter (fun p => p.2 == lab) := by
    rw [List.mem_filter]
    exact ⟨hmem, by simp⟩
  exact List.mem_map.mpr ⟨(x, lab), hfil, rfl⟩

theorem selectRows_eq_nil {ρ : Type} (t : List ρ) (ps : List Nat) (k : Nat)
    (h : ∀ l ∈ ps, l ≠ k) : selectRows ps k t = [] := by
  rw [selectRows, List.map_eq_nil_iff, List.filter_eq_nil_iff]
  intro p hp
  have := h p.2 (List.of_mem_zip hp).2
  simp [this]

/-! ### Claim theorems about the nested partition -/

/-- C2: For every nested structure of row-aligned leaves with common leading
length M, every assignment array of length M with labels in `[0, n)`, and every
n, the nested partition is a length-preserving bijection on rows: there are
exactly n output groups, within each group every leaf is an order-preserving
subsequence of the corresponding input leaf, for every leaf the rows of the n
groups together form a permutation of the original rows (so the group row
counts sum to M and every row appears in exactly one group), and each row
lands in the group matching its recorded label. -/
theorem partition_is_row_bijection {ρ : Type} [DecidableEq ρ] (nested : Nest (List ρ))
    (ps : List Nat) (n M : Nat)
    (hne : nested.flatten ≠ [])
    (hM : ∀ t ∈ nested.flatten, t.length = M)
    (hps : ps.length = M)
    (hlab : ∀ l ∈ ps, l < n) :
    ∃ gs : List (Nest (List ρ)),
      dynamicPartitionOfNestedTensors nested ps n = gs.map some ∧
      gs.length = n ∧
      (∀ g ∈ gs, List.Forall₂ (fun gt t => gt.Sublist t) g.flatten nested.flatten) ∧
      (∀ jt t, nested.flatten[jt]? = some t →
        ((gs.map (fun g => g.flatten.getD jt [])).flatten.Perm t ∧
        (∑ i in Finset.range n, ((dynamicPartition t ps n).getD i []).length) = M ∧
        (∀ (j lab : Nat) (x : ρ), ps[j]? = some lab → t[j]? = some x →
          ∃ g : Nest (List ρ), gs[lab]? = some g ∧ x ∈ g.flatten.getD jt []))) := by
  refine ⟨(List.range n).map (fun i => nested.map (selectRows ps i)), ?_, by simp, ?_, ?_⟩
  · rw [dynamicPartitionOfNestedTensors_eq nested ps n hne, List.map_map]
    rfl
  · intro g hg
    rcases List.mem_map.mp hg with ⟨i, _, rfl⟩
    rw [Nest.flatten_map, List.forall₂_map_left_iff, List.forall₂_same]
    intro t ht
    exact selectRows_sublist t ps i (le_of_eq ((hM t ht).trans hps.symm))
  · intro jt t hjt
    have htm : t ∈ nested.flatten := mem_of_getElem_eq_some hjt
    have htM : t.length = M := hM t htm
    have hgetD : ∀ i : Nat,
        ((nested.map (selectRows ps i)).flatten.getD jt []) = selectRows ps i t := by
      intro i
      rw [Nest.flatten_map, List.getD_eq_getElem?_getD, List.getElem?_map, hjt]
      rfl
    have hmapsel : ((List.range n).map (fun i => nested.map (selectRows ps i))).map
        (fun g => g.flatten.getD jt []) = (List.range n).map (fun i => selectRows ps i t) := by
      rw [List.map_map]
      exact List.map_congr_left (fun i _ => hgetD i)
    refine ⟨?_, ?_, ?_⟩
    · rw [hmapsel]
      exact selectRows_join_perm t ps n hlab (htM.trans hps.symm)
    · calc (∑ i in Finset.range n, ((dynamicPartition t ps n).getD i []).length)
          = ∑ i in Finset.range n, (selectRows ps i t).length :=
            Finset.sum_congr rfl (fun i hi => by
              rw [dynamicPartition_getD t ps n i (Finset.mem_range.mp hi)])
        _ = t.length := sum_length_selectRows t ps n hlab (htM.trans hps.symm)
        _ = M := htM
    · intro j lab x hj hx
      have hlabn : lab < n := hlab lab (mem_of_getElem_eq_some hj)
      refine ⟨nested.map (selectRows ps lab), ?_, ?_⟩
      · rw [List.getElem?_map, List.getElem?_range hlabn]
        rfl
      · rw [hgetD lab]
        exact selectRows_mem t ps j lab x hj hx

/-- C3: For every nested input structure (with row-aligned leaves), assignment
array, and n, each of the n output groups of the nested partition has exactly
the same tree shape as the input structure once leaves are stripped, and all
leaves within one output group remain row-aligned (same row count) with each
other. -/
theorem partition_preserves_shape {ρ : Type} (nested : Nest (List ρ))
    (ps : List Nat) (n M : Nat)
    (hne : nested.flatten ≠ [])
    (hM : ∀ t ∈ nested.flatten, t.length = M)
    (hps : ps.length = M) :
    ∃ gs : List (Nest (List ρ)),
      dynamicPartitionOfNestedTensors nested ps n = gs.map some ∧
      gs.length = n ∧
      ∀ g ∈ gs, g.shape = nested.shape ∧
        ∀ t1 ∈ g.flatten, ∀ t2 ∈ g.flatten, t1.length = t2.length := by
  refine ⟨(List.range n).map (fun i => nested.map (selectRows ps i)), ?_, by simp, ?_⟩
  · rw [dynamicPartitionOfNestedTensors_eq nested ps n hne, List.map_map]
    rfl
  · intro g hg
    rcases List.mem_map.mp hg with ⟨i, _, rfl⟩
    refine ⟨Nest.shape_map _ _, ?_⟩
    intro t1 ht1 t2 ht2
    rw [Nest.flatten_map] at ht1 ht2
    rcases List.mem_map.mp ht1 with ⟨s1, hs1, rfl⟩
    rcases List.mem_map.mp ht2 with ⟨s2, hs2, rfl⟩
    rw [length_selectRows s1 ps i ((hM s1 hs1).trans hps.symm),
      length_selectRows s2 ps i ((hM s2 hs2).trans hps.symm)]

/-! ### Lemmas about construction -/

theorem specErrorStep_eq_none_iff {S ρ : Type} [DecidableEq S]
    (aS tS iS : S) (em : Option String) (agent : SubAgent S ρ) :
    specErrorStep (ρ := ρ) aS tS iS em agent = none ↔
      em = none ∧ agent.actionSpec = aS ∧ agent.timeStepSpec = tS ∧ agent.infoSpec = iS := by
  by_cases h1 : aS ≠ agent.actionSpec <;> by_cases h2 : tS ≠ agent.timeStepSpec <;>
    by_cases h3 : iS ≠ agent.infoSpec <;>
    simp [specErrorStep, h1, h2, h3, eq_comm] <;> tauto

theorem foldl_specErrorStep_eq_none_iff {S ρ : Type} [DecidableEq S] (aS tS iS : S) :
    ∀ (rest : List (SubAgent S ρ)) (em : Option String),
      rest.foldl (specErrorStep aS tS iS) em = none ↔
        em = none ∧ ∀ a ∈ rest,
          a.actionSpec = aS ∧ a.timeStepSpec = tS ∧ a.infoSpec = iS
  | [], em => by simp
  | a :: rest, em => by
    rw [List.foldl_cons, foldl_specErrorStep_eq_none_iff aS tS iS rest,
      specErrorStep_eq_none_iff]
    constructor
    · rintro ⟨⟨hem, ha⟩, hrest⟩
      exact ⟨hem, by simpa using ⟨ha, hrest⟩⟩
    · rintro ⟨hem, hall⟩
      simp only [List.mem_cons, forall_eq_or_imp] at hall
      exact ⟨⟨hem, hall.1⟩, hall.2⟩

theorem initErrorMessage_eq_none_iff {S ρ : Type} [DecidableEq S] (w : List Int)
    (a0 : SubAgent S ρ) (rest : List (SubAgent S ρ)) :
    initErrorMessage w a0 rest = none ↔
      w.length = (a0 :: rest).length ∧ ∀ a ∈ rest,
        a.actionSpec = a0.actionSpec ∧ a.timeStepSpec = a0.timeStepSpec ∧
        a.infoSpec = a0.infoSpec := by
  simp only [initErrorMessage]
  by_cases hlen : w.length ≠ (a0 :: rest).length
  · rw [if_pos hlen]
    simp only [List.length_cons] at hlen
    simp [hlen]
  · rw [if_neg hlen]
    rw [not_ne_iff] at hlen
    rw [foldl_specErrorStep_eq_none_iff]
    simp [hlen]

theorem exists_valueError_iff {S ρ : Type} [DecidableEq S] (w : List Int)
    (a0 : SubAgent S ρ) (rest : List (SubAgent S ρ)) :
    (∃ msg, mixtureInit w (a0 :: rest) = Except.error (InitError.valueError msg)) ↔
      initErrorMessage w a0 rest ≠ none := by
  cases h : initErrorMessage w a0 rest with
  | none => simp [mixtureInit, h]
  | some m =>
    simp only [mixtureInit, h]
    exact ⟨fun _ => by simp, fun _ => ⟨m, rfl⟩⟩

theorem pairwise_ne_iff_ne_head {S A ρ : Type} (f : SubAgent S ρ → A)
    (a0 : SubAgent S ρ) (rest : List (SubAgent S ρ)) :
    (∃ a ∈ a0 :: rest, ∃ b ∈ a0 :: rest, f a ≠ f b) ↔ ∃ a ∈ rest, f a ≠ f a0 := by
  constructor
  · rintro ⟨a, ha, b, hb, hne⟩
    by_contra hc
    push_neg at hc
    have heq : ∀ x ∈ a0 :: rest, f x = f a0 := by
      intro x hx
      rcases List.mem_cons.mp hx with rfl | hx'
      · rfl
      · exact hc x hx'
    exact hne ((heq a ha).trans (heq b hb).symm)
  · rintro ⟨a, ha, hne⟩
    exact ⟨a, List.mem_cons_of_mem a0 ha, a0, List.mem_cons_self a0 rest, hne⟩

/-- C4 counterexample: with `mixture_weights = [1]` and an empty agent list the
length-mismatch condition holds, yet construction does not fail with a
configuration (value) error — reading `agents[0]` raises an index error before
any validation check runs. -/
theorem construction_error_iff_cex :
    ([(1 : Int)].length ≠ ([] : List (SubAgent Nat Int)).length) ∧
    mixtureInit [(1 : Int)] ([] : List (SubAgent Nat Int)) =
      Except.error InitError.indexError ∧
    ¬ ∃ msg, mixtureInit [(1 : Int)] ([] : List (SubAgent Nat Int)) =
      Except.error (InitError.valueError msg) := by
  refine ⟨by decide, rfl, ?_⟩
  rintro ⟨msg, h⟩
  have h' : Except.error (ε := InitError) (α := StaticMixtureAgent Nat Int)
      InitError.indexError = Except.error (InitError.valueError msg) := h
  injection h' with h''
  exact InitError.noConfusion h''

/-- C4 (amended to nonempty agent lists): for a nonempty agent list,
construction fails with a configuration (value) error precisely when
`len(mixture_weights) != len(agents)`, or some two agents differ on
`action_spec`, on `time_step_spec`, or on the policy auxiliary-info spec.
(With an empty agent list, construction instead fails with an index error
before validation, see the counterexample.) -/
theorem construction_error_iff {S ρ : Type} [DecidableEq S] (w : List Int)
    (a0 : SubAgent S ρ) (rest : List (SubAgent S ρ)) :
    (∃ msg, mixtureInit w (a0 :: rest) = Except.error (InitError.valueError msg)) ↔
      (w.length ≠ (a0 :: rest).length ∨
       (∃ a ∈ a0 :: rest, ∃ b ∈ a0 :: rest, a.actionSpec ≠ b.actionSpec) ∨
       (∃ a ∈ a0 :: rest, ∃ b ∈ a0 :: rest, a.timeStepSpec ≠ b.timeStepSpec) ∨
       (∃ a ∈ a0 :: rest, ∃ b ∈ a0 :: rest, a.infoSpec ≠ b.infoSpec)) := by
  rw [exists_valueError_iff, Ne, initErrorMessage_eq_none_iff,
    pairwise_ne_iff_ne_head (fun a => a.actionSpec),
    pairwise_ne_iff_ne_head (fun a => a.timeStepSpec),
    pairwise_ne_iff_ne_head (fun a => a.infoSpec)]
  rw [not_and_or]
  constructor
  · rintro (hlen | hall)
    · exact Or.inl hlen
    · push_neg at hall
      rcases hall with ⟨a, ha, hne⟩
      by_cases h1 : a.actionSpec = a0.actionSpec
      · by_cases h2 : a.timeStepSpec = a0.timeStepSpec
        · exact Or.inr (Or.inr (Or.inr ⟨a, ha, fun hc => (hne h1 h2) hc⟩))
        · exact Or.inr (Or.inr (Or.inl ⟨a, ha, h2⟩))
      · exact Or.inr (Or.inl ⟨a, ha, h1⟩)
  · rintro (hlen | ⟨a, ha, hne⟩ | ⟨a, ha, hne⟩ | ⟨a, ha, hne⟩)
    · exact Or.inl hlen
    all_goals
      refine Or.inr ?_
      intro hall
      rcases hall a ha with ⟨e1, e2, e3⟩
      tauto

/-- C5: for `N ≥ 1` agents that all agree on `action_spec`, `time_step_spec`
and policy info spec, and non-negative mixture weights of matching length,
construction succeeds and the resulting coordinator's `action_spec` and
`time_step_spec` are taken verbatim from the first agent. -/
theorem construction_success_specs {S ρ : Type} [DecidableEq S] (w : List Int)
    (a0 : SubAgent S ρ) (rest : List (SubAgent S ρ))
    (hlen : w.length = (a0 :: rest).length)
    (hnn : ∀ x ∈ w, 0 ≤ x)
    (hact : ∀ a ∈ a0 :: rest, a.actionSpec = a0.actionSpec)
    (htime : ∀ a ∈ a0 :: rest, a.timeStepSpec = a0.timeStepSpec)
    (hinfo : ∀ a ∈ a0 :: rest, a.infoSpec = a0.infoSpec) :
    ∃ c : StaticMixtureAgent S ρ, mixtureInit w (a0 :: rest) = Except.ok c ∧
      c.actionSpec = a0.actionSpec ∧ c.timeStepSpec = a0.timeStepSpec := by
  have hem : initErrorMessage w a0 rest = none := by
    rw [initErrorMessage_eq_none_iff]
    refine ⟨hlen, fun a ha => ?_⟩
    have ha' := List.mem_cons_of_mem a0 ha
    exact ⟨hact a ha', htime a ha', hinfo a ha'⟩
  exact ⟨_, by rw [mixtureInit, hem], rfl, rfl⟩

/-! ### The order of validation checks, continued (C9) -/

theorem option_or_none {α : Type} (a : Option α) : a.or none = a := by
  cases a <;> rfl

theorem getLast?_append_or {α : Type} (xs ys : List α) :
    (xs ++ ys).getLast? = ys.getLast?.or xs.getLast? := by
  cases ys with
  | nil => simp
  | cons y ys' =>
    rw [List.getLast?_append_of_ne_nil xs (by simp)]
    have hne : (y :: ys') ≠ ([] : List α) := by simp
    rcases Option.isSome_iff_exists.mp (List.getLast?_isSome.mpr hne) with ⟨m, hm⟩
    rw [hm]
    rfl

theorem specErrorStep_eq_getLast_or {S ρ : Type} [DecidableEq S] (aS tS iS : S)
    (em : Option String) (agent : SubAgent S ρ) :
    specErrorStep (ρ := ρ) aS tS iS em agent =
      ((specCheckMessages aS tS iS agent).getLast?).or em := by
  by_cases h1 : aS ≠ agent.actionSpec <;> by_cases h2 : tS ≠ agent.timeStepSpec <;>
    by_cases h3 : iS ≠ agent.infoSpec <;>
    simp [specErrorStep, specCheckMessages, h1, h2, h3, getLast?_append_or, Option.or]

theorem foldl_specErrorStep_eq_getLast_or {S ρ : Type} [DecidableEq S] (aS tS iS : S) :
    ∀ (rest : List (SubAgent S ρ)) (em : Option String),
      rest.foldl (specErrorStep aS tS iS) em =
        ((rest.map (specCheckMessages aS tS iS)).flatten.getLast?).or em
  | [], em => by simp
  | a :: rest, em => by
    rw [List.foldl_cons, foldl_specErrorStep_eq_getLast_or aS tS iS rest,
      specErrorStep_eq_getLast_or, List.map_cons, List.flatten_cons,
      getLast?_append_or, Option.or_assoc]

theorem initErrorMessage_eq_getLast {S ρ : Type} [DecidableEq S] (w : List Int)
    (a0 : SubAgent S ρ) (rest : List (SubAgent S ρ)) :
    initErrorMessage w a0 rest = (failingMessages w (a0 :: rest)).getLast? := by
  rw [failingMessages, getLast?_append_or]
  simp only [initErrorMessage]
  by_cases hlen : w.length ≠ (a0 :: rest).length
  · rw [if_pos hlen, if_pos hlen]
    rfl
  · rw [if_neg hlen, if_neg hlen]
    rw [foldl_specErrorStep_eq_getLast_or]
    simp [option_or_none]

/-- C9: when more than one construction validation check fails, the single
raised configuration error carries only the message of the last failing check
in evaluation order (per agent: action spec, then time step spec, then info
spec, over `agents[1:]` in order; then the length check, which therefore
always overrides any earlier spec-mismatch message). -/
theorem construction_error_last_failing {S ρ : Type} [DecidableEq S] (w : List Int)
    (agents : List (SubAgent S ρ))
    (hmulti : 2 ≤ (failingMessages w agents).length) :
    mixtureInit w agents =
      Except.error (InitError.valueError ((failingMessages w agents).getLastD "")) := by
  cases agents with
  | nil => simp [failingMessages] at hmulti
  | cons a0 rest =>
    have hne : failingMessages w (a0 :: rest) ≠ [] := by
      intro hc
      rw [hc] at hmulti
      exact absurd hmulti (by simp)
    rcases Option.isSome_iff_exists.mp (List.getLast?_isSome.mpr hne) with ⟨m, hm⟩
    have hinit : initErrorMessage w a0 rest = some m :=
      (initErrorMessage_eq_getLast w a0 rest).trans hm
    rw [mixtureInit, hinit, List.getLastD_eq_getLast?, hm]
    rfl

/-! ### Characterizing the training operation -/

theorem map_option_batch_id {ρ : Type} (l : List (Option (Nest (List ρ)))) :
    l.map (Option.map batchNestedTensors) = l := by
  induction l with
  | nil => rfl
  | cons a l ih =>
    rw [List.map_cons, ih]
    cases a <;> rfl

theorem trainLoop_eq {S ρ : Type} [Zero ρ] (agents : List (SubAgent S ρ))
    (pObs pAct pInf pRew : List (Option (Nest (List ρ)))) (T : Nat → Transition ρ)
    (ks : List Nat) :
    ∀ (trace : List (Nat × Transition ρ)) (loss : Int),
      (∀ k ∈ ks,
        pObs.getD k none = some (T k).observation ∧
        pAct.getD k none = some (T k).action ∧
        pInf.getD k none = some (T k).policyInfo ∧
        pRew.getD k none = some (T k).reward ∧
        (T k).discount = zerosLike (T k).reward ∧
        k < agents.length) →
      trainLoop agents pObs pAct pInf pRew ks trace loss =
        some (trace ++ ks.map (fun k => (k, T k)),
          { loss := loss + (ks.map (fun k =>
              ((agents[k]?.map (fun a => (a.train (T k)).loss)).getD 0))).sum,
            extra := () }) := by
  induction ks with
  | nil => intro trace loss _; simp [trainLoop]
  | cons k ks ih =>
    intro trace loss h
    rcases h k (by simp) with ⟨ho, ha, hi, hr, hd, hk⟩
    have hrest : ∀ x ∈ ks,
        pObs.getD x none = some (T x).observation ∧
        pAct.getD x none = some (T x).action ∧
        pInf.getD x none = some (T x).policyInfo ∧
        pRew.getD x none = some (T x).reward ∧
        (T x).discount = zerosLike (T x).reward ∧
        x < agents.length := fun x hx => h x (by simp [hx])
    have hag : agents[k]? = some agents[k] := List.getElem?_eq_getElem hk
    have hexp : Transition.mk (T k).observation (T k).action (T k).policyInfo
        (T k).reward (zerosLike (T k).reward) = T k := by
      rw [← hd]
    simp only [trainLoop, ho, ha, hi, hr, hag]
    rw [hexp, ih (trace ++ [(k, T k)]) (loss + ((agents[k]).train (T k)).loss) hrest]
    rw [List.append_assoc]
    simp only [List.map_cons, List.sum_cons, List.singleton_append, hag]
    rw [Int.add_assoc]
    rfl

theorem getD_range_map_some {ρ : Type} (N : Nat) (f : Nat → Nest (List ρ)) (k : Nat)
    (hk : k < N) :
    ((List.range N).map (fun i => some (f i))).getD k none = some (f k) := by
  rw [List.getD_eq_getElem?_getD, List.getElem?_map, List.getElem?_range hk]
  rfl

/-- Under the nonemptiness conditions, `_train` succeeds, every sub-agent index
`k < numAgents` is trained exactly once, in ascending order, on
`routedTransition e k`, and the returned loss is the sum of the per-agent
losses. -/
theorem mixtureTrain_eq {S ρ W : Type} [Zero ρ] (c : StaticMixtureAgent S ρ)
    (e : MixtureExperience ρ) (w : Option W)
    (hA : c.numAgents = c.agents.length)
    (ho : (flattenMultiBatched e.observation).flatten ≠ [])
    (ha : (flattenMultiBatched e.action).flatten ≠ [])
    (hi : (flattenMultiBatched e.subpolicyInfo).flatten ≠ []) :
    mixtureTrain c e w = some
      ((List.range c.numAgents).map (fun k => (k, routedTransition e k)),
       { loss := ((List.range c.numAgents).map (fun k =>
           ((c.agents[k]?.map (fun a => (a.train (routedTransition e k)).loss)).getD 0))).sum,
         extra := () }) := by
  simp only [mixtureTrain]
  rw [map_option_batch_id, map_option_batch_id, map_option_batch_id, map_option_batch_id,
    dynamicPartitionOfNestedTensors_eq _ _ _ ho,
    dynamicPartitionOfNestedTensors_eq _ _ _ ha,
    dynamicPartitionOfNestedTensors_eq _ _ _ hi,
    dynamicPartitionOfNestedTensors_eq (Nest.leaf e.reward.flatten) _ _ (by simp)]
  have hyp : ∀ k ∈ List.range c.numAgents,
      ((List.range c.numAgents).map (fun i => some ((flattenMultiBatched e.observation).map
        (selectRows e.mixtureAgentId.flatten i)))).getD k none
        = some ((routedTransition e k).observation) ∧
      ((List.range c.numAgents).map (fun i => some ((flattenMultiBatched e.action).map
        (selectRows e.mixtureAgentId.flatten i)))).getD k none
        = some ((routedTransition e k).action) ∧
      ((List.range c.numAgents).map (fun i => some ((flattenMultiBatched e.subpolicyInfo).map
        (selectRows e.mixtureAgentId.flatten i)))).getD k none
        = some ((routedTransition e k).policyInfo) ∧
      ((List.range c.numAgents).map (fun i => some ((Nest.leaf e.reward.flatten).map
        (selectRows e.mixtureAgentId.flatten i)))).getD k none
        = some ((routedTransition e k).reward) ∧
      (routedTransition e k).discount = zerosLike ((routedTransition e k).reward) ∧
      k < c.agents.length := by
    intro k hk
    have hkn : k < c.numAgents := List.mem_range.mp hk
    refine ⟨getD_range_map_some _ _ k hkn, getD_range_map_some _ _ k hkn,
      getD_range_map_some _ _ k hkn, getD_range_map_some _ _ k hkn, ?_, hA ▸ hkn⟩
    exact congrArg Nest.leaf
      (List.map_const' (selectRows e.mixtureAgentId.flatten k e.reward.flatten) (0 : ρ)).symm
  rw [trainLoop_eq c.agents _ _ _ _ (routedTransition e) (List.range c.numAgents) [] 0 hyp]
  rw [List.nil_append, Int.zero_add]

theorem range_optionGet_enumFrom {α β : Type} (d : β) :
    ∀ (l : List α) (i : Nat) (g : Nat → α → β),
      ((List.range l.length).map (fun k => ((l[k]?.map (g (i + k))).getD d))) =
        (l.enumFrom i).map (fun p => g p.1 p.2)
  | [], i, g => by simp
  | a :: l, i, g => by
    rw [List.length_cons, List.range_succ_eq_map, List.map_cons, List.map_map]
    have htail : (List.range l.length).map
          ((fun k => (((a :: l)[k]?.map (g (i + k))).getD d)) ∘ Nat.succ) =
        (List.range l.length).map (fun k => ((l[k]?.map (g ((i + 1) + k))).getD d)) := by
      apply List.map_congr_left
      intro k _
      simp only [Function.comp, List.getElem?_cons_succ]
      rw [show i + (k + 1) = (i + 1) + k by omega]
    rw [htail, range_optionGet_enumFrom d l (i + 1) g]
    simp [List.enumFrom]

theorem range_optionGet_enum {α β : Type} (d : β) (l : List α) (g : Nat → α → β) :
    ((List.range l.length).map (fun k => ((l[k]?.map (g k)).getD d))) =
      l.enum.map (fun p => g p.1 p.2) := by
  have h := range_optionGet_enumFrom d l 0 g
  simp only [Nat.zero_add] at h
  exact h

/-- C1: for every valid batch, `train` invokes each of the N sub-agents'
train exactly once, in ascending index order `k = 0 .. N-1`, with the
sub-batch of rows whose recorded `mixture_agent_id` equals `k`, and returns as
its own loss the plain accumulated sum of the N returned scalar losses, with
no averaging and no weighting by group size. -/
theorem train_routes_once_and_sums {S ρ W : Type} [Zero ρ] (c : StaticMixtureAgent S ρ)
    (e : MixtureExperience ρ) (w : Option W)
    (hA : c.numAgents = c.agents.length)
    (hv : ValidExperience e c.numAgents) :
    mixtureTrain c e w = some
      ((List.range c.numAgents).map (fun k => (k, routedTransition e k)),
       { loss := (c.agents.enum.map
           (fun p => (p.2.train (routedTransition e p.1)).loss)).sum,
         extra := () }) := by
  obtain ⟨ho, ha, hi, -, -, -, -, -⟩ := hv
  rw [mixtureTrain_eq c e w hA ho ha hi]
  have hsum : ((List.range c.numAgents).map (fun k =>
      ((c.agents[k]?.map (fun a => (a.train (routedTransition e k)).loss)).getD 0))).sum
      = (c.agents.enum.map (fun p => (p.2.train (routedTransition e p.1)).loss)).sum := by
    rw [hA,
      range_optionGet_enum (0 : Int) c.agents (fun k a => (a.train (routedTransition e k)).loss)]
  rw [hsum]

/-- C6: for every sub-agent index `k`, the transition record passed to
sub-agent `k`'s train is a single-step transition built from group `k`'s
observation, action, recovered auxiliary policy-info, and reward, whose
discount field is all zeros with the same shape as group `k`'s reward. -/
theorem train_zero_discount_single_step {S ρ W : Type} [Zero ρ]
    (c : StaticMixtureAgent S ρ) (e : MixtureExperience ρ) (w : Option W)
    (hA : c.numAgents = c.agents.length)
    (hv : ValidExperience e c.numAgents) :
    ∃ (trace : List (Nat × Transition ρ)) (li : LossInfo),
      mixtureTrain c e w = some (trace, li) ∧
      trace.length = c.numAgents ∧
      ∀ p ∈ trace, p.1 < c.numAgents ∧
        p.2.observation = (flattenMultiBatched e.observation).map
          (selectRows e.mixtureAgentId.flatten p.1) ∧
        p.2.action = (flattenMultiBatched e.action).map
          (selectRows e.mixtureAgentId.flatten p.1) ∧
        p.2.policyInfo = (flattenMultiBatched e.subpolicyInfo).map
          (selectRows e.mixtureAgentId.flatten p.1) ∧
        ∃ rws : List ρ,
          p.2.reward = Nest.leaf rws ∧
          rws = selectRows e.mixtureAgentId.flatten p.1 e.reward.flatten ∧
          p.2.discount = Nest.leaf (List.replicate rws.length 0) := by
  obtain ⟨ho, ha, hi, -, -, -, -, -⟩ := hv
  refine ⟨_, _, mixtureTrain_eq c e w hA ho ha hi, by simp, ?_⟩
  intro p hp
  rcases List.mem_map.mp hp with ⟨k, hk, rfl⟩
  exact ⟨List.mem_range.mp hk, rfl, rfl, rfl,
    selectRows e.mixtureAgentId.flatten k e.reward.flatten, rfl, rfl, rfl⟩

theorem sum_split_at {α : Type} (l : List α) (k : Nat) (x : α) (f : α → Int)
    (hx : l[k]? = some x) :
    (l.map f).sum = ((l.take k).map f).sum + f x + ((l.drop (k + 1)).map f).sum := by
  have hk : k < l.length := by
    by_contra hc
    rw [List.getElem?_eq_none (Nat.le_of_not_lt hc)] at hx
    exact Option.noConfusion hx
  have hxv : l[k] = x := by
    rw [List.getElem?_eq_getElem hk] at hx
    exact Option.some.inj hx
  conv_lhs => rw [← List.take_append_drop k l]
  rw [List.map_append, List.sum_append, List.drop_eq_getElem_cons hk, hxv,
    List.map_cons, List.sum_cons]
  omega

/-- C7: for every batch in which sub-agent index `k` receives zero rows,
`train` does not fail on that group and does not skip it: sub-agent `k`'s
train is still invoked, in its place in the ascending pass over all indices,
with a zero-row transition record, and the loss it returns is included in the
accumulated sum exactly like a non-empty group's loss. -/
theorem train_empty_group_included {S ρ W : Type} [Zero ρ]
    (c : StaticMixtureAgent S ρ) (e : MixtureExperience ρ) (w : Option W) (k : Nat)
    (hA : c.numAgents = c.agents.length)
    (hv : ValidExperience e c.numAgents)
    (hk : k < c.numAgents)
    (hzero : ∀ i ∈ e.mixtureAgentId.flatten, i ≠ k) :
    ∃ (trace : List (Nat × Transition ρ)) (li : LossInfo) (T : Transition ρ)
      (ak : SubAgent S ρ),
      mixtureTrain c e w = some (trace, li) ∧
      trace.map Prod.fst = List.range c.numAgents ∧
      (k, T) ∈ trace ∧
      (∀ t ∈ T.observation.flatten, t = []) ∧
      (∀ t ∈ T.action.flatten, t = []) ∧
      (∀ t ∈ T.policyInfo.flatten, t = []) ∧
      T.reward = Nest.leaf [] ∧
      T.discount = Nest.leaf [] ∧
      c.agents[k]? = some ak ∧
      li.loss = ((c.agents.enum.take k).map
          (fun p => (p.2.train (routedTransition e p.1)).loss)).sum
        + (ak.train T).loss
        + ((c.agents.enum.drop (k + 1)).map
          (fun p => (p.2.train (routedTransition e p.1)).loss)).sum := by
  obtain ⟨ho, ha, hi, -, -, -, -, -⟩ := hv
  have hka : k < c.agents.length := hA ▸ hk
  have hag : c.agents[k]? = some c.agents[k] := List.getElem?_eq_getElem hka
  have hsel : ∀ {σ : Type} (t : List σ),
      selectRows e.mixtureAgentId.flatten k t = [] :=
    fun t => selectRows_eq_nil t e.mixtureAgentId.flatten k hzero
  refine ⟨_, _, routedTransition e k, c.agents[k],
    mixtureTrain_eq c e w hA ho ha hi, ?_, ?_, ?_, ?_, ?_, ?_, ?_, hag, ?_⟩
  · rw [List.map_map]
    have hcomp : (Prod.fst ∘ fun j => (j, routedTransition e j)) = fun j : Nat => j := rfl
    rw [hcomp]
    exact List.map_id' (List.range c.numAgents)
  · exact List.mem_map.mpr ⟨k, List.mem_range.mpr hk, rfl⟩
  · intro t ht
    have hTobs : (routedTransition e k).observation =
        (flattenMultiBatched e.observation).map
          (selectRows e.mixtureAgentId.flatten k) := rfl
    rw [hTobs, Nest.flatten_map] at ht
    rcases List.mem_map.mp ht with ⟨s, _, rfl⟩
    exact hsel s
  · intro t ht
    have hTact : (routedTransition e k).action =
        (flattenMultiBatched e.action).map
          (selectRows e.mixtureAgentId.flatten k) := rfl
    rw [hTact, Nest.flatten_map] at ht
    rcases List.mem_map.mp ht with ⟨s, _, rfl⟩
    exact hsel s
  · intro t ht
    have hTinf : (routedTransition e k).policyInfo =
        (flattenMultiBatched e.subpolicyInfo).map
          (selectRows e.mixtureAgentId.flatten k) := rfl
    rw [hTinf, Nest.flatten_map] at ht
    rcases List.mem_map.mp ht with ⟨s, _, rfl⟩
    exact hsel s
  · show Nest.leaf (selectRows e.mixtureAgentId.flatten k e.reward.flatten) = _
    rw [hsel]
  · show Nest.leaf (List.replicate
      (selectRows e.mixtureAgentId.flatten k e.reward.flatten).length 0) = _
    rw [hsel]
    rfl
  · show ((List.range c.numAgents).map (fun j =>
      ((c.agents[j]?.map (fun a => (a.train (routedTransition e j)).loss)).getD 0))).sum = _
    have henum : c.agents.enum[k]? = some (k, c.agents[k]) := by
      simp [List.getElem?_enum, hag]
    rw [hA, range_optionGet_enum (0 : Int) c.agents
      (fun j a => (a.train (routedTransition e j)).loss)]
    exact sum_split_at c.agents.enum k (k, c.agents[k])
      (fun p => (p.2.train (routedTransition e p.1)).loss) henum

theorem trainLoop_fst_eq {S ρ : Type} [Zero ρ] (agents1 agents2 : List (SubAgent S ρ))
    (pObs pAct pInf pRew : List (Option (Nest (List ρ))))
    (hl : agents1.length = agents2.length) :
    ∀ (ks : List Nat) (trace : List (Nat × Transition ρ)) (loss1 loss2 : Int),
      Option.map Prod.fst (trainLoop agents1 pObs pAct pInf pRew ks trace loss1) =
      Option.map Prod.fst (trainLoop agents2 pObs pAct pInf pRew ks trace loss2) := by
  intro ks
  induction ks with
  | nil => intro trace l1 l2; simp [trainLoop]
  | cons k ks ih =>
    intro trace l1 l2
    simp only [trainLoop]
    cases hO : pObs.getD k none with
    | none => rfl
    | some obs =>
    cases hA2 : pAct.getD k none with
    | none => rfl
    | some act =>
    cases hI : pInf.getD k none with
    | none => rfl
    | some inf =>
    cases hR : pRew.getD k none with
    | none => rfl
    | some rew =>
    by_cases hk : k < agents1.length
    · have hk2 : k < agents2.length := hl ▸ hk
      rw [List.getElem?_eq_getElem hk, List.getElem?_eq_getElem hk2]
      exact ih _ _ _
    · have hk2 : ¬ k < agents2.length := by rw [← hl]; exact hk
      rw [List.getElem?_eq_none (Nat.le_of_not_lt hk),
        List.getElem?_eq_none (Nat.le_of_not_lt hk2)]

/-- C8: two executions of `train` on the same batch with the same
`mixture_agent_id` assignment produce identical groupings — the same call
trace of (sub-agent index, routed transition) pairs, hence the same partition
membership and within-group row order for every field — even when the two
coordinators' sub-agents have entirely different training behaviour (the
source of any loss stochasticity); the routing logic itself introduces no
nondeterminism. -/
theorem train_grouping_deterministic {S ρ W : Type} [Zero ρ]
    (c1 c2 : StaticMixtureAgent S ρ) (e : MixtureExperience ρ) (w : Option W)
    (hn : c1.numAgents = c2.numAgents)
    (hl : c1.agents.length = c2.agents.length) :
    Option.map Prod.fst (mixtureTrain c1 e w) =
      Option.map Prod.fst (mixtureTrain c2 e w) := by
  simp only [mixtureTrain]
  rw [hn]
  exact trainLoop_fst_eq c1.agents c2.agents _ _ _ _ hl (List.range c2.numAgents) [] 0 0

/-- C10: `train(experience, weights)` behaves identically for any two values
of the optional `weights` argument: the argument is discarded before any
computation, so it influences neither the partitioning, the sub-agent
invocations, nor the returned loss. -/
theorem train_ignores_weights {S ρ W : Type} [Zero ρ] (c : StaticMixtureAgent S ρ)
    (e : MixtureExperience ρ) (w1 w2 : Option W) :
    mixtureTrain c e w1 = mixtureTrain c e w2 := rfl

/-! ### Witness theorems -/

theorem partition_is_row_bijection_witness :
    (probeNest.flatten ≠ [] ∧ (∀ t ∈ probeNest.flatten, t.length = 4) ∧
      ([0, 1, 0, 1] : List Nat).length = 4 ∧ (∀ l ∈ ([0, 1, 0, 1] : List Nat), l < 2)) ∧
    (∃ gs : List (Nest (List Int)),
      dynamicPartitionOfNestedTensors probeNest [0, 1, 0, 1] 2 = gs.map some ∧
      gs.length = 2 ∧
      (∀ g ∈ gs, List.Forall₂ (fun gt t => gt.Sublist t) g.flatten probeNest.flatten) ∧
      (∀ jt t, probeNest.flatten[jt]? = some t →
        (((gs.map (fun g => g.flatten.getD jt [])).flatten.Perm t ∧
        (∑ i in Finset.range 2, ((dynamicPartition t [0, 1, 0, 1] 2).getD i []).length) = 4 ∧
        (∀ (j lab : Nat) (x : Int), ([0, 1, 0, 1] : List Nat)[j]? = some lab →
          t[j]? = some x →
          ∃ g : Nest (List Int), gs[lab]? = some g ∧ x ∈ g.flatten.getD jt []))))) :=
  ⟨⟨by decide, by decide, by decide, by decide⟩,
    partition_is_row_bijection probeNest [0, 1, 0, 1] 2 4
      (by decide) (by decide) (by decide) (by decide)⟩

theorem partition_preserves_shape_witness :
    (probeNest.flatten ≠ [] ∧ (∀ t ∈ probeNest.flatten, t.length = 4) ∧
      ([0, 1, 0, 1] : List Nat).length = 4) ∧
    (∃ gs : List (Nest (List Int)),
      dynamicPartitionOfNestedTensors probeNest [0, 1, 0, 1] 3 = gs.map some ∧
      gs.length = 3 ∧
      ∀ g ∈ gs, g.shape = probeNest.shape ∧
        ∀ t1 ∈ g.flatten, ∀ t2 ∈ g.flatten, t1.length = t2.length) :=
  ⟨⟨by decide, by decide, by decide⟩,
    partition_preserves_shape probeNest [0, 1, 0, 1] 3 4
      (by decide) (by decide) (by decide)⟩

theorem construction_success_specs_witness :
    (([1, 2] : List Int).length = ([agentA, agentB] : List (SubAgent Nat Int)).length ∧
      (∀ x ∈ ([1, 2] : List Int), 0 ≤ x) ∧
      (∀ a ∈ [agentA, agentB], a.actionSpec = agentA.actionSpec) ∧
      (∀ a ∈ [agentA, agentB], a.timeStepSpec = agentA.timeStepSpec) ∧
      (∀ a ∈ [agentA, agentB], a.infoSpec = agentA.infoSpec)) ∧
    (∃ c : StaticMixtureAgent Nat Int, mixtureInit [1, 2] [agentA, agentB] = Except.ok c ∧
      c.actionSpec = agentA.actionSpec ∧ c.timeStepSpec = agentA.timeStepSpec) :=
  ⟨⟨by decide, by decide, by decide, by decide, by decide⟩,
    construction_success_specs [1, 2] agentA [agentB]
      (by decide) (by decide) (by decide) (by decide) (by decide)⟩

theorem construction_error_last_failing_witness :
    2 ≤ (failingMessages [1, 2, 3] [agentA, agentC]).length ∧
    mixtureInit [1, 2, 3] [agentA, agentC] =
      Except.error (InitError.valueError
        ((failingMessages [1, 2, 3] [agentA, agentC]).getLastD "")) :=
  ⟨by decide, construction_error_last_failing [1, 2, 3] [agentA, agentC] (by decide)⟩

theorem train_routes_once_and_sums_witness :
    (probeCoordinator.numAgents = probeCoordinator.agents.length ∧
      ValidExperience probeExperience probeCoordinator.numAgents) ∧
    mixtureTrain probeCoordinator probeExperience (none : Option Nat) = some
      ((List.range probeCoordinator.numAgents).map
        (fun k => (k, routedTransition probeExperience k)),
       { loss := (probeCoordinator.agents.enum.map
           (fun p => (p.2.train (routedTransition probeExperience p.1)).loss)).sum,
         extra := () }) :=
  ⟨⟨rfl, by decide⟩,
    train_routes_once_and_sums probeCoordinator probeExperience (none : Option Nat)
      rfl (by decide)⟩

theorem train_zero_discount_single_step_witness :
    (probeCoordinator.numAgents = probeCoordinator.agents.length ∧
      ValidExperience probeExperience probeCoordinator.numAgents) ∧
    (∃ (trace : List (Nat × Transition Int)) (li : LossInfo),
      mixtureTrain probeCoordinator probeExperience (none : Option Nat) = some (trace, li) ∧
      trace.length = probeCoordinator.numAgents ∧
      ∀ p ∈ trace, p.1 < probeCoordinator.numAgents ∧
        p.2.observation = (flattenMultiBatched probeExperience.observation).map
          (selectRows probeExperience.mixtureAgentId.flatten p.1) ∧
        p.2.action = (flattenMultiBatched probeExperience.action).map
          (selectRows probeExperience.mixtureAgentId.flatten p.1) ∧
        p.2.policyInfo = (flattenMultiBatched probeExperience.subpolicyInfo).map
          (selectRows probeExperience.mixtureAgentId.flatten p.1) ∧
        ∃ rws : List Int,
          p.2.reward = Nest.leaf rws ∧
          rws = selectRows probeExperience.mixtureAgentId.flatten p.1
            probeExperience.reward.flatten ∧
          p.2.discount = Nest.leaf (List.replicate rws.length 0)) :=
  ⟨⟨rfl, by decide⟩,
    train_zero_discount_single_step probeCoordinator probeExperience (none : Option Nat)
      rfl (by decide)⟩

theorem train_empty_group_included_witness :
    (probeCoordinator3.numAgents = probeCoordinator3.agents.length ∧
      ValidExperience probeExperienceAllZero probeCoordinator3.numAgents ∧
      1 < probeCoordinator3.numAgents ∧
      (∀ i ∈ probeExperienceAllZero.mixtureAgentId.flatten, i ≠ 1)) ∧
    (∃ (trace : List (Nat × Transition Int)) (li : LossInfo) (T : Transition Int)
      (ak : SubAgent Nat Int),
      mixtureTrain probeCoordinator3 probeExperienceAllZero (none : Option Nat)
        = some (trace, li) ∧
      trace.map Prod.fst = List.range probeCoordinator3.numAgents ∧
      (1, T) ∈ trace ∧
      (∀ t ∈ T.observation.flatten, t = []) ∧
      (∀ t ∈ T.action.flatten, t = []) ∧
      (∀ t ∈ T.policyInfo.flatten, t = []) ∧
      T.reward = Nest.leaf [] ∧
      T.discount = Nest.leaf [] ∧
      probeCoordinator3.agents[1]? = some ak ∧
      li.loss = ((probeCoordinator3.agents.enum.take 1).map
          (fun p => (p.2.train (routedTransition probeExperienceAllZero p.1)).loss)).sum
        + (ak.train T).loss
        + ((probeCoordinator3.agents.enum.drop 2).map
          (fun p => (p.2.train (routedTransition probeExperienceAllZero p.1)).loss)).sum) :=
  ⟨⟨rfl, by decide, by decide, by decide⟩,
    train_empty_group_included probeCoordinator3 probeExperienceAllZero
      (none : Option Nat) 1 rfl (by decide) (by decide) (by decide)⟩

theorem train_grouping_deterministic_witness :
    (probeCoordinator.numAgents = probeCoordinatorAlt.numAgents ∧
      probeCoordinator.agents.length = probeCoordinatorAlt.agents.length) ∧
    Option.map Prod.fst (mixtureTrain probeCoordinator probeExperience (none : Option Nat)) =
      Option.map Prod.fst
        (mixtureTrain probeCoordinatorAlt probeExperience (none : Option Nat)) :=
  ⟨⟨rfl, rfl⟩,
    train_grouping_deterministic probeCoordinator probeCoordinatorAlt probeExperience
      (none : Option Nat) rfl rfl⟩
